import Mathlib

set_option maxRecDepth 10000

/-!
Verification of the ingest-and-query core of the `ami_viewer` repository
(`src/app.py`): a content-hash-gated spreadsheet ingest into an SQLite store
(tables `files`, `contracts`, `readings`) and three read-only queries.

Modelling conventions:
* The SQLite database is a `DB` value: the three tables as lists plus the
  AUTOINCREMENT counters.  SQLite row ids start at 1.
* Machine floats (`kwh REAL`, pandas float coercion) are modelled as `Rat`;
  the code never does arithmetic on them, it only parses, stores and returns
  them, so the modelling is exact.
* A pandas `DataFrame` is a header row (`cols`) plus a list of rows of cells.
* `pd.ExcelFile` / `pd.read_excel` are external library calls; the workbook
  they would produce is passed to `ingest_excel_to_db` as an explicit
  argument, with `none` standing for a sheet whose `pd.read_excel` raises.
* The `with get_conn() as con:` block of `sqlite3` commits on normal exit and
  rolls back on an exception; a failing ingest therefore returns the original
  `DB` unchanged.
-/

namespace AmiViewer

/-- A spreadsheet cell as pandas sees it: a string, a number, or NaN. -/
inductive Cell where
  | str (s : String)
  | num (q : Rat)
  | null
deriving Repr, DecidableEq

/-- One sheet already read by `pd.read_excel`: header names and rows of cells.
Missing trailing cells of a row are read back as NaN (`Cell.null`). -/
structure DataFrame where
  cols : List String
  rows : List (List Cell)
deriving Repr, DecidableEq

/-- Decimal digit to character. -/
def digitChar : Nat → Char
  | 0 => '0' | 1 => '1' | 2 => '2' | 3 => '3' | 4 => '4'
  | 5 => '5' | 6 => '6' | 7 => '7' | 8 => '8' | _ => '9'

/-- Decimal rendering of a natural number, fuel-recursive so that it reduces
in the kernel.  `fuel ≥ number of digits` always holds for `fuel = n + 1`. -/
def natToStrAux : Nat → Nat → List Char
  | 0, _ => []
  | _ + 1, n =>
    if n < 10 then [digitChar n]
    else natToStrAux n (n / 10) ++ [digitChar (n % 10)]

/-- Decimal rendering of a natural number (`str(n)` in Python). -/
def natToStr (n : Nat) : String := String.mk (natToStrAux (n + 1) n)

/-- Decimal rendering of an integer (`str(n)` in Python). -/
def intToStr (i : Int) : String :=
  if i < 0 then "-" ++ natToStr i.natAbs else natToStr i.natAbs

/-- Model of `df["年月日"].astype(str)` applied to one cell: strings stay themselves,
integral numbers render as their digits, NaN renders as `"nan"`.  A
non-integral number renders (as in pandas, where a float shows a decimal
point) to a string that is not all digits, so that it can never parse as an
8-digit `%Y%m%d` date; the exact text is irrelevant downstream. -/
def cellStr : Cell → String
  | .str s => s
  | .num q => if q.den = 1 then intToStr q.num else intToStr q.num ++ "/" ++ natToStr q.den
  | .null => "nan"

/-- Value of a list of decimal digit characters. -/
def digitsToNat (cs : List Char) : Nat :=
  cs.foldl (fun n c => 10 * n + (c.toNat - 48)) 0

/-- Gregorian leap year, as in Python's `datetime`. -/
def isLeap (y : Nat) : Bool := (y % 4 == 0 && y % 100 != 0) || y % 400 == 0

/-- Days in a month, as validated by `datetime.strptime`. -/
def daysInMonth (y m : Nat) : Nat :=
  if m = 2 then (if isLeap y then 29 else 28)
  else if m = 4 ∨ m = 6 ∨ m = 9 ∨ m = 11 then 30 else 31

/-- Model of `pd.to_datetime(s, format="%Y%m%d", errors="coerce")` on one string:
exactly eight digits, a real calendar date (year ≥ 1), else NaT (`none`). -/
def parseYmd (s : String) : Option (Nat × Nat × Nat) :=
  let cs := s.data
  if cs.length = 8 ∧ cs.all Char.isDigit then
    let y := digitsToNat (cs.take 4)
    let m := digitsToNat ((cs.drop 4).take 2)
    let d := digitsToNat (cs.drop 6)
    if 1 ≤ y ∧ 1 ≤ m ∧ m ≤ 12 ∧ 1 ≤ d ∧ d ≤ daysInMonth y m then some (y, m, d)
    else none
  else none

/-- Model of `dt.strftime("%Y-%m-%d")`: zero-padded ISO date (years here are ≤ 9999,
coming from a 4-digit `%Y` field). -/
def fmtYmd (d : Nat × Nat × Nat) : String :=
  String.mk [digitChar (d.1 / 1000 % 10), digitChar (d.1 / 100 % 10),
             digitChar (d.1 / 10 % 10), digitChar (d.1 % 10), '-',
             digitChar (d.2.1 / 10 % 10), digitChar (d.2.1 % 10), '-',
             digitChar (d.2.2 / 10 % 10), digitChar (d.2.2 % 10)]

/-- Unsigned decimal-literal parse (integer part, optional `.` and fraction),
the string form accepted by `pd.to_numeric`. -/
def parseNumCore (cs : List Char) : Option Rat :=
  let intPart := cs.takeWhile (· ≠ '.')
  match cs.dropWhile (· ≠ '.') with
  | [] =>
    if intPart ≠ [] ∧ intPart.all Char.isDigit then some (digitsToNat intPart : Nat)
    else none
  | _ :: fracPart =>
    if (intPart ≠ [] ∨ fracPart ≠ []) ∧ intPart.all Char.isDigit ∧ fracPart.all Char.isDigit then
      some ((digitsToNat intPart : Nat) + (digitsToNat fracPart : Nat) / ((10 : Rat) ^ fracPart.length))
    else none

/-- Model of `pd.to_numeric(·, errors="coerce")` on one string cell: an optionally
signed decimal literal, else NaN (`none`). -/
def parseNum (s : String) : Option Rat :=
  match s.data with
  | '-' :: rest => (parseNumCore rest).map (fun q => -q)
  | '+' :: rest => parseNumCore rest
  | cs => parseNumCore cs

/-- Model of `pd.to_numeric(·, errors="coerce").fillna(0.0)` on one cell: numbers pass
through, parseable strings are parsed, everything else becomes `0.0`. -/
def coerceKwh : Cell → Rat
  | .num q => q
  | .str s => (parseNum s).getD 0
  | .null => 0

/-- Position of a column name in the header (first occurrence). -/
def idxOfCol (x : String) : List String → Nat
  | [] => 0
  | c :: cs => if c == x then 0 else idxOfCol x cs + 1

/-- The time-slot columns: `[c for c in df.columns if ":" in str(c)]`. -/
def time_cols (df : DataFrame) : List String :=
  df.cols.filter (fun c => c.data.contains ':')

/-- The rows surviving
`df["年月日"] = pd.to_datetime(df["年月日"].astype(str), format="%Y%m%d", errors="coerce")`
followed by `df.dropna(subset=["年月日"])`, each paired with its parsed date. -/
def validRows (df : DataFrame) : List ((Nat × Nat × Nat) × List Cell) :=
  df.rows.filterMap (fun r =>
    (parseYmd (cellStr (r.getD (idxOfCol "年月日" df.cols) Cell.null))).map (fun d => (d, r)))

/-- The long-format rows `(ymd, time, kwh)` produced by the body of
`insert_readings`: melt of the date column against the time-slot columns,
in pandas `melt` order (per value column, then per row).  The two early
`return`s of the source (no `"年月日"` column, no time-slot columns) are the
empty output. -/
def melt_long (df : DataFrame) : List (String × String × Rat) :=
  if df.cols.contains "年月日" then
    if time_cols df = [] then []
    else
      (time_cols df).flatMap (fun tc =>
        (validRows df).map (fun dr =>
          (fmtYmd dr.1, tc, coerceKwh (dr.2.getD (idxOfCol tc df.cols) Cell.null))))
  else []

/-- A `files` row: `id, name, sha256` (`ingested_at` carries no logic). -/
structure FileRec where
  id : Nat
  name : String
  sha256 : String
deriving Repr, DecidableEq

/-- A `contracts` row: `id, contract_no`. -/
structure ContractRec where
  id : Nat
  contract_no : String
deriving Repr, DecidableEq

/-- A `readings` row: `contract_id, ymd, time, kwh`. -/
structure Reading where
  contract_id : Nat
  ymd : String
  time : String
  kwh : Rat
deriving Repr, DecidableEq

/-- The SQLite store: the three tables plus the AUTOINCREMENT counters. -/
structure DB where
  files : List FileRec
  contracts : List ContractRec
  readings : List Reading
  nextFileId : Nat
  nextContractId : Nat
deriving Repr, DecidableEq

/-- A freshly created store (AUTOINCREMENT starts at 1). -/
def emptyDB : DB := ⟨[], [], [], 1, 1⟩

/-- Model of `init_db`: `CREATE TABLE IF NOT EXISTS` for the three tables.  On the
modelled state — the contents of the tables — creating absent tables touches
no row, so this is the identity. -/
def init_db (db : DB) : DB := db

/-- The `UNIQUE(contract_id, ymd, time)` key predicate of `readings`. -/
def keyMatch (cid : Nat) (ymd t : String) (r : Reading) : Bool :=
  r.contract_id == cid && r.ymd == ymd && r.time == t

/-- One `INSERT ... ON CONFLICT(contract_id, ymd, time) DO UPDATE SET
kwh=excluded.kwh` against the `readings` table. -/
def upsertReading (l : List Reading) (cid : Nat) (ymd t : String) (v : Rat) : List Reading :=
  if l.any (keyMatch cid ymd t) then
    l.map (fun r => if keyMatch cid ymd t r then { r with kwh := v } else r)
  else l ++ [⟨cid, ymd, t, v⟩]

/-- Model of `con.executemany` of the upsert over the long-format rows, in order. -/
def applyRows (cid : Nat) (rows : List (String × String × Rat)) (l : List Reading) :
    List Reading :=
  rows.foldl (fun l e => upsertReading l cid e.1 e.2.1 e.2.2) l

/-- Model of `insert_readings(con, contract_id, df)`: normalize the sheet and upsert
every long-format row. -/
def insert_readings (db : DB) (contract_id : Nat) (df : DataFrame) : DB :=
  { db with readings := applyRows contract_id (melt_long df) db.readings }

/-- Model of `ensure_contract(con, contract_no)`: look the identifier up, else insert
a fresh row; returns the surrogate key and the store. -/
def ensure_contract (db : DB) (contract_no : String) : Nat × DB :=
  match db.contracts.find? (fun c => c.contract_no == contract_no) with
  | some c => (c.id, db)
  | none =>
    (db.nextContractId,
     { db with contracts := db.contracts ++ [⟨db.nextContractId, contract_no⟩],
               nextContractId := db.nextContractId + 1 })

/-! Model of `file_sha256`, that is `hashlib.sha256(file_bytes).hexdigest()`, implemented in
full (FIPS 180-4) over a list of bytes (`Nat`s, taken mod 256). -/

/-- Truncation of a natural number to its low 32 bits. -/
def w32 (n : Nat) : Nat := n % 4294967296

/-- Rotation of the low 32 bits of `x` rightwards by `n` places. -/
def rotateR32 (n x : Nat) : Nat := w32 ((x >>> n) ||| (x <<< (32 - n)))

/-- The Σ₀ mixing function of the SHA-256 round. -/
def sumFn0 (x : Nat) : Nat := rotateR32 2 x ^^^ rotateR32 13 x ^^^ rotateR32 22 x

/-- The Σ₁ mixing function of the SHA-256 round. -/
def sumFn1 (x : Nat) : Nat := rotateR32 6 x ^^^ rotateR32 11 x ^^^ rotateR32 25 x

/-- The σ₀ mixing function of the SHA-256 message schedule. -/
def sigFn0 (x : Nat) : Nat := rotateR32 7 x ^^^ rotateR32 18 x ^^^ (x >>> 3)

/-- The σ₁ mixing function of the SHA-256 message schedule. -/
def sigFn1 (x : Nat) : Nat := rotateR32 17 x ^^^ rotateR32 19 x ^^^ (x >>> 10)

/-- The choice function of the SHA-256 round (complement taken inside 32 bits). -/
def chFn (x y z : Nat) : Nat := (x &&& y) ^^^ ((x ^^^ 4294967295) &&& z)

/-- The majority function of the SHA-256 round. -/
def majFn (x y z : Nat) : Nat := (x &&& y) ^^^ (x &&& z) ^^^ (y &&& z)

/-- The sixty-four SHA-256 round constants, written in decimal. -/
def sha256K : List Nat :=
  [1116352408, 1899447441, 3049323471, 3921009573, 961987163,
   1508970993, 2453635748, 2870763221, 3624381080, 310598401,
   607225278, 1426881987, 1925078388, 2162078206, 2614888103,
   3248222580, 3835390401, 4022224774, 264347078, 604807628,
   770255983, 1249150122, 1555081692, 1996064986, 2554220882,
   2821834349, 2952996808, 3210313671, 3336571891, 3584528711,
   113926993, 338241895, 666307205, 773529912, 1294757372,
   1396182291, 1695183700, 1986661051, 2177026350, 2456956037,
   2730485921, 2820302411, 3259730800, 3345764771, 3516065817,
   3600352804, 4094571909, 275423344, 430227734, 506948616,
   659060556, 883997877, 958139571, 1322822218, 1537002063,
   1747873779, 1955562222, 2024104815, 2227730452, 2361852424,
   2428436474, 2756734187, 3204031479, 3329325298]

/-- The eight SHA-256 initial hash words, written in decimal. -/
def sha256H0 : List Nat :=
  [1779033703, 3144134277, 1013904242, 2773480762,
   1359893119, 2600822924, 528734635, 1541459225]

/-- Merkle–Damgård padding: `0x80`, zeros to 56 mod 64, 8-byte big-endian
bit length. -/
def padMsg (msg : List Nat) : List Nat :=
  let len := msg.length
  msg ++ [0x80] ++ List.replicate ((119 - len % 64) % 64) 0 ++
    (List.range 8).map (fun i => (8 * len) >>> (8 * (7 - i)) % 4294967296 % 256)

/-- The sixteen big-endian message words of one 64-byte block. -/
def toWords (b : List Nat) : List Nat :=
  (List.range 16).map (fun i =>
    (b.getD (4 * i) 0 % 256) * 16777216 + (b.getD (4 * i + 1) 0 % 256) * 65536 +
    (b.getD (4 * i + 2) 0 % 256) * 256 + (b.getD (4 * i + 3) 0 % 256))

/-- Message schedule: extend the sixteen block words to sixty-four. -/
def schedule (ws : List Nat) : List Nat :=
  (List.range 48).foldl
    (fun w _ =>
      w ++ [w32 (sigFn1 (w.getD (w.length - 2) 0) + w.getD (w.length - 7) 0 +
                 sigFn0 (w.getD (w.length - 15) 0) + w.getD (w.length - 16) 0)])
    ws

/-- One SHA-256 compression step (state is the `(a,…,h)` tuple as a list). -/
def sha256Round (w : List Nat) (s : List Nat) (t : Nat) : List Nat :=
  let a := s.getD 0 0
  let e := s.getD 4 0
  let t1 := w32 (s.getD 7 0 + sumFn1 e + chFn e (s.getD 5 0) (s.getD 6 0) +
                 sha256K.getD t 0 + w.getD t 0)
  let t2 := w32 (sumFn0 a + majFn a (s.getD 1 0) (s.getD 2 0))
  [w32 (t1 + t2), a, s.getD 1 0, s.getD 2 0, w32 (s.getD 3 0 + t1),
   e, s.getD 5 0, s.getD 6 0]

/-- Compress one 64-byte block into the running hash. -/
def compressBlock (h : List Nat) (block : List Nat) : List Nat :=
  let w := schedule (toWords block)
  let s := (List.range 64).foldl (sha256Round w) h
  (List.range 8).map (fun i => w32 (h.getD i 0 + s.getD i 0))

/-- Split the padded message into 64-byte blocks. -/
def blocks64 (l : List Nat) : List (List Nat) :=
  (List.range ((l.length + 63) / 64)).map (fun i => (l.drop (64 * i)).take 64)

/-- Lowercase hexadecimal digit. -/
def hexChar (n : Nat) : Char :=
  "0123456789abcdef".data.getD n '0'

/-- Eight lowercase hex digits of a 32-bit word. -/
def wordHexChars (w : Nat) : List Char :=
  (List.range 8).map (fun i => hexChar (w >>> (4 * (7 - i)) % 16))

/-- Model of `file_sha256(file_bytes)`: the SHA-256 hex digest of the raw bytes. -/
def file_sha256 (file_bytes : List Nat) : String :=
  String.mk
    (((blocks64 (padMsg file_bytes)).foldl compressBlock sha256H0).flatMap wordHexChars)

/-- Outcome of one `ingest_excel_to_db` call: the `(False, msg)` duplicate
return, the `(True, msg)` success return, or a propagated exception. -/
inductive IngestOutcome where
  | skipped (msg : String)
  | ingested (msg : String)
  | failed
deriving Repr, DecidableEq

/-- The per-sheet loop of `ingest_excel_to_db`: `pd.read_excel` (a `none`
sheet is a raised parse exception, aborting the loop), `ensure_contract`,
`insert_readings`. -/
def ingestSheets (db : DB) : List (String × Option DataFrame) → Option DB
  | [] => some db
  | (_, none) :: _ => none
  | (sheet, some df) :: rest =>
    let ec := ensure_contract db sheet
    ingestSheets (insert_readings ec.2 ec.1 df) rest

/-- Model of `ingest_excel_to_db(file_bytes, file_name)`, with the workbook that
`pd.ExcelFile`/`pd.read_excel` would parse from those bytes passed
explicitly.  The whole body runs inside one `with get_conn() as con:` block,
which commits on success and rolls back on an exception, so the failing case
returns the incoming store unchanged. -/
def ingest_excel_to_db (file_bytes : List Nat) (file_name : String)
    (wb : List (String × Option DataFrame)) (db : DB) : DB × IngestOutcome :=
  let db0 := init_db db
  let sha := file_sha256 file_bytes
  if db0.files.any (fun f => f.sha256 == sha) then
    (db0, .skipped "This file has already been ingested (by content hash).")
  else
    match ingestSheets db0 wb with
    | none => (db0, .failed)
    | some db1 =>
      ({ db1 with
          files := db1.files ++ [⟨db1.nextFileId, file_name, sha⟩],
          nextFileId := db1.nextFileId + 1 },
       .ingested "Ingest completed.")

/-- Byte order on strings (SQLite's BINARY collation; UTF-8 byte order and
code-point order agree). -/
def lexLe : List Char → List Char → Bool
  | [], _ => true
  | _ :: _, [] => false
  | a :: as, b :: bs =>
    if a.toNat < b.toNat then true
    else if b.toNat < a.toNat then false
    else lexLe as bs

/-- String comparison used by `ORDER BY` on TEXT columns. -/
def strLe (a b : String) : Bool := lexLe a.data b.data

/-- Ordered insertion for `sortByLe`. -/
def insertLe (le : α → α → Bool) (x : α) : List α → List α
  | [] => [x]
  | y :: ys => if le x y then x :: y :: ys else y :: insertLe le x ys

/-- Model of `ORDER BY`: a sorted permutation of the result rows (insertion sort). -/
def sortByLe (le : α → α → Bool) : List α → List α
  | [] => []
  | x :: xs => insertLe le x (sortByLe le xs)

/-- Model of `list_contracts()`: `SELECT id, contract_no FROM contracts ORDER BY
contract_no`, after `init_db()`; keeps the store and the result. -/
def list_contracts (db : DB) : DB × List (Nat × String) :=
  let db1 := init_db db
  (db1,
   (sortByLe (fun a b => strLe a.contract_no b.contract_no) db1.contracts).map
     (fun c => (c.id, c.contract_no)))

/-- Model of `list_dates(contract_id)`: `SELECT DISTINCT ymd FROM readings WHERE
contract_id=? ORDER BY ymd`. -/
def list_dates (db : DB) (contract_id : Nat) : DB × List String :=
  (db,
   sortByLe strLe
     (((db.readings.filter (fun r => r.contract_id == contract_id)).map
        (fun r => r.ymd)).dedup))

/-- Model of `get_series(contract_id, ymd)`: `SELECT time, kwh FROM readings WHERE
contract_id=? AND ymd=? ORDER BY time`, returned as the two parallel lists
of the source (`[], []` when no row matches). -/
def get_series (db : DB) (contract_id : Nat) (ymd : String) :
    DB × (List String × List Rat) :=
  let rows := sortByLe (fun a b => strLe a.time b.time)
    (db.readings.filter (fun r => r.contract_id == contract_id && r.ymd == ymd))
  if rows = [] then (db, ([], []))
  else (db, (rows.map (fun r => r.time), rows.map (fun r => r.kwh)))

/-! ### Observation functions on the `readings` table -/

/-- Number of `readings` rows with the given `(contract_id, ymd, time)` key. -/
def countKey (l : List Reading) (cid : Nat) (ymd t : String) : Nat :=
  l.countP (keyMatch cid ymd t)

/-- The stored value of the given key, when a row for it exists. -/
def lookupKey (l : List Reading) (cid : Nat) (ymd t : String) : Option Rat :=
  (l.find? (keyMatch cid ymd t)).map (fun r => r.kwh)

/-- The `UNIQUE(contract_id, ymd, time)` table constraint: no two rows share
a key. -/
def readingsUnique : List Reading → Bool
  | [] => true
  | r :: rs => !(rs.any (keyMatch r.contract_id r.ymd r.time)) && readingsUnique rs

/-- The value of the last long-format row carrying the given `(ymd, time)`
pair, if any — the value a last-write-wins batch leaves behind. -/
def lastVal (y t : String) : List (String × String × Rat) → Option Rat
  | [] => none
  | e :: rest =>
    match lastVal y t rest with
    | some v => some v
    | none => if e.1 = y ∧ e.2.1 = t then some e.2.2 else none

/-! ### Lemmas about the upsert -/

theorem keyMatch_iff {c : Nat} {y t : String} {r : Reading} :
    keyMatch c y t r = true ↔ r.contract_id = c ∧ r.ymd = y ∧ r.time = t := by
  simp [keyMatch, Bool.and_eq_true, beq_iff_eq, and_assoc]

theorem keyMatch_setKwh (c : Nat) (y t : String) (r : Reading) (v : Rat) :
    keyMatch c y t { r with kwh := v } = keyMatch c y t r := rfl

theorem any_congr {α : Type} (l : List α) (p q : α → Bool) (h : ∀ a, p a = q a) :
    l.any p = l.any q := by
  induction l with
  | nil => rfl
  | cons x xs ih => simp [List.any_cons, h, ih]

theorem countKey_le_one (l : List Reading) (c : Nat) (y t : String)
    (hu : readingsUnique l = true) : countKey l c y t ≤ 1 := by
  induction l with
  | nil => simp [countKey]
  | cons r rs ih =>
    rw [readingsUnique] at hu
    simp only [Bool.and_eq_true, Bool.not_eq_true'] at hu
    obtain ⟨hany, hurs⟩ := hu
    rw [countKey, List.countP_cons]
    by_cases hk : keyMatch c y t r = true
    · obtain ⟨h1, h2, h3⟩ := keyMatch_iff.mp hk
      subst h1; subst h2; subst h3
      have h0 : rs.countP (keyMatch r.contract_id r.ymd r.time) = 0 :=
        List.countP_eq_zero.mpr (List.any_eq_false.mp hany)
      simp [hk, h0]
    · have := ih hurs
      rw [countKey] at this
      simp [hk, this]

theorem countP_map_eq (p : Reading → Bool) (f : Reading → Reading) (l : List Reading)
    (hf : ∀ r, p (f r) = p r) : (l.map f).countP p = l.countP p := by
  induction l with
  | nil => rfl
  | cons r rs ih => simp [List.countP_cons, hf, ih]

theorem find?_map_eq (p : Reading → Bool) (f : Reading → Reading) (l : List Reading)
    (hf : ∀ r, p (f r) = p r) (hid : ∀ r, p r = true → f r = r) :
    (l.map f).find? p = l.find? p := by
  induction l with
  | nil => rfl
  | cons r rs ih =>
    by_cases h : p r = true
    · rw [List.map_cons, List.find?_cons_of_pos _ ((hf r).trans h),
        List.find?_cons_of_pos _ h, hid r h]
    · have h' : p r = false := by simpa using h
      rw [List.map_cons, List.find?_cons_of_neg _ (by simp [hf r, h']),
        List.find?_cons_of_neg _ (by simp [h']), ih]

theorem readingsUnique_map (f : Reading → Reading) (l : List Reading)
    (hc : ∀ r, (f r).contract_id = r.contract_id)
    (hy : ∀ r, (f r).ymd = r.ymd) (ht : ∀ r, (f r).time = r.time) :
    readingsUnique (l.map f) = readingsUnique l := by
  induction l with
  | nil => rfl
  | cons r rs ih =>
    rw [List.map_cons, readingsUnique, readingsUnique, ih, List.any_map]
    rw [hc, hy, ht]
    have : rs.any (keyMatch r.contract_id r.ymd r.time ∘ f) =
        rs.any (keyMatch r.contract_id r.ymd r.time) :=
      any_congr rs _ _ (fun a => by simp [Function.comp, keyMatch, hc, hy, ht])
    rw [this]

theorem readingsUnique_append (l : List Reading) (c : Nat) (y t : String) (v : Rat)
    (hu : readingsUnique l = true) (hn : l.any (keyMatch c y t) = false) :
    readingsUnique (l ++ [⟨c, y, t, v⟩]) = true := by
  induction l with
  | nil => simp [readingsUnique, keyMatch]
  | cons r rs ih =>
    rw [readingsUnique] at hu
    simp only [Bool.and_eq_true, Bool.not_eq_true'] at hu
    obtain ⟨ha, hrs⟩ := hu
    rw [List.any_cons] at hn
    simp only [Bool.or_eq_false_iff] at hn
    obtain ⟨hkr, hrest⟩ := hn
    rw [List.cons_append, readingsUnique]
    simp only [Bool.and_eq_true, Bool.not_eq_true']
    refine ⟨?_, ih hrs hrest⟩
    rw [List.any_append, ha]
    simp only [Bool.false_or, List.any_cons, List.any_nil, Bool.or_false]
    simp only [keyMatch, Bool.and_eq_false_iff, beq_eq_false_iff_ne, ne_eq] at hkr ⊢
    rcases hkr with (h1 | h2) | h3
    · exact Or.inl (Or.inl (fun hh => h1 hh.symm))
    · exact Or.inl (Or.inr (fun hh => h2 hh.symm))
    · exact Or.inr (fun hh => h3 hh.symm)

theorem readingsUnique_upsert (l : List Reading) (c : Nat) (y t : String) (v : Rat)
    (hu : readingsUnique l = true) :
    readingsUnique (upsertReading l c y t v) = true := by
  unfold upsertReading
  by_cases h : l.any (keyMatch c y t) = true
  · rw [if_pos h, readingsUnique_map _ _
      (fun r => by by_cases hk : keyMatch c y t r = true <;> simp [hk])
      (fun r => by by_cases hk : keyMatch c y t r = true <;> simp [hk])
      (fun r => by by_cases hk : keyMatch c y t r = true <;> simp [hk])]
    exact hu
  · rw [if_neg h]
    exact readingsUnique_append l c y t v hu (by simpa using h)

theorem countKey_upsert_self (l : List Reading) (c : Nat) (y t : String) (v : Rat)
    (hu : readingsUnique l = true) :
    countKey (upsertReading l c y t v) c y t = 1 := by
  unfold upsertReading
  by_cases h : l.any (keyMatch c y t) = true
  · rw [if_pos h, countKey, countP_map_eq _ _ _
      (fun r => by by_cases hk : keyMatch c y t r = true <;>
        simp [hk, keyMatch_setKwh])]
    have h1 : countKey l c y t ≤ 1 := countKey_le_one l c y t hu
    have h2 : 0 < l.countP (keyMatch c y t) :=
      List.countP_pos_iff.mpr (by simpa using List.any_eq_true.mp h)
    rw [countKey] at h1
    omega
  · rw [if_neg h, countKey, List.countP_append]
    have h0 : l.countP (keyMatch c y t) = 0 :=
      List.countP_eq_zero.mpr (List.any_eq_false.mp (by simpa using h))
    simp [h0, keyMatch]

theorem lookup_map_upsert (c : Nat) (y t : String) (v : Rat) :
    ∀ l : List Reading, l.any (keyMatch c y t) = true →
      Option.map (fun r => r.kwh)
        ((l.map (fun r => if keyMatch c y t r = true then { r with kwh := v } else r)).find?
          (keyMatch c y t)) = some v := by
  intro l
  induction l with
  | nil => intro h; simp at h
  | cons r rs ih =>
    intro h
    by_cases hk : keyMatch c y t r = true
    · rw [List.map_cons, List.find?_cons_of_pos _
        (by rw [if_pos hk]; exact (keyMatch_setKwh c y t r v).trans hk)]
      rw [if_pos hk]
      rfl
    · have hk' : keyMatch c y t r = false := by simpa using hk
      rw [List.map_cons, List.find?_cons_of_neg _ (by simp [hk'])]
      rw [List.any_cons, hk', Bool.false_or] at h
      exact ih h

theorem lookupKey_upsert_self (l : List Reading) (c : Nat) (y t : String) (v : Rat) :
    lookupKey (upsertReading l c y t v) c y t = some v := by
  unfold upsertReading
  by_cases h : l.any (keyMatch c y t) = true
  · rw [if_pos h, lookupKey]
    exact lookup_map_upsert c y t v l h
  · rw [if_neg h, lookupKey, List.find?_append,
      List.find?_eq_none.mpr (fun r hr => by
        have := List.any_eq_false.mp (by simpa using h) r hr
        simp [this])]
    simp [keyMatch]

theorem keyMatch_mk_ne (c c' : Nat) (y y' t t' : String) (v : Rat)
    (hne : ¬(c' = c ∧ y' = y ∧ t' = t)) :
    keyMatch c y t (⟨c', y', t', v⟩ : Reading) = false := by
  simp only [keyMatch, Bool.and_eq_false_iff, beq_eq_false_iff_ne, ne_eq]
  by_contra hcon
  push_neg at hcon
  exact hne ⟨hcon.1.1, hcon.1.2, hcon.2⟩

theorem countKey_upsert_ne (l : List Reading) (c c' : Nat) (y y' t t' : String) (v : Rat)
    (hne : ¬(c' = c ∧ y' = y ∧ t' = t)) :
    countKey (upsertReading l c' y' t' v) c y t = countKey l c y t := by
  unfold upsertReading
  by_cases h : l.any (keyMatch c' y' t') = true
  · rw [if_pos h, countKey, countKey, countP_map_eq _ _ _
      (fun r => by by_cases hk : keyMatch c' y' t' r = true <;>
        simp [hk, keyMatch_setKwh])]
  · rw [if_neg h, countKey, countKey, List.countP_append]
    simp [keyMatch_mk_ne c c' y y' t t' v hne]

theorem lookupKey_upsert_ne (l : List Reading) (c c' : Nat) (y y' t t' : String) (v : Rat)
    (hne : ¬(c' = c ∧ y' = y ∧ t' = t)) :
    lookupKey (upsertReading l c' y' t' v) c y t = lookupKey l c y t := by
  unfold upsertReading
  by_cases h : l.any (keyMatch c' y' t') = true
  · rw [if_pos h, lookupKey, lookupKey, find?_map_eq _ _ _
      (fun r => by by_cases hk : keyMatch c' y' t' r = true <;>
        simp [hk, keyMatch_setKwh])
      (fun r hr => by
        by_cases hk : keyMatch c' y' t' r = true
        · obtain ⟨a1, a2, a3⟩ := keyMatch_iff.mp hk
          obtain ⟨b1, b2, b3⟩ := keyMatch_iff.mp hr
          exact absurd ⟨a1 ▸ b1, a2 ▸ b2, a3 ▸ b3⟩ hne
        · simp [hk])]
  · rw [if_neg h, lookupKey, lookupKey, List.find?_append]
    simp [keyMatch_mk_ne c c' y y' t t' v hne]

theorem applyRows_cons (cid : Nat) (e : String × String × Rat)
    (rows : List (String × String × Rat)) (l : List Reading) :
    applyRows cid (e :: rows) l = applyRows cid rows (upsertReading l cid e.1 e.2.1 e.2.2) :=
  rfl

theorem readingsUnique_applyRows (cid : Nat) (rows : List (String × String × Rat)) :
    ∀ l, readingsUnique l = true → readingsUnique (applyRows cid rows l) = true := by
  induction rows with
  | nil => exact fun l hl => hl
  | cons e rest ih =>
    intro l hl
    rw [applyRows_cons]
    exact ih _ (readingsUnique_upsert _ _ _ _ _ hl)

theorem applyRows_not_mentioned (cid c : Nat) (y t : String)
    (rows : List (String × String × Rat))
    (h : ∀ e ∈ rows, ¬(e.1 = y ∧ e.2.1 = t)) :
    ∀ l, countKey (applyRows cid rows l) c y t = countKey l c y t ∧
      lookupKey (applyRows cid rows l) c y t = lookupKey l c y t := by
  induction rows with
  | nil => exact fun l => ⟨rfl, rfl⟩
  | cons e rest ih =>
    intro l
    rw [applyRows_cons]
    have hne : ¬(cid = c ∧ e.1 = y ∧ e.2.1 = t) :=
      fun hcon => h e (List.mem_cons_self e rest) ⟨hcon.2.1, hcon.2.2⟩
    obtain ⟨hcnt, hlk⟩ := ih (fun e' he' => h e' (List.mem_cons_of_mem e he')) (upsertReading l cid e.1 e.2.1 e.2.2)
    exact ⟨hcnt.trans (countKey_upsert_ne l c cid y e.1 t e.2.1 e.2.2 hne),
      hlk.trans (lookupKey_upsert_ne l c cid y e.1 t e.2.1 e.2.2 hne)⟩

theorem lastVal_none (y t : String) :
    ∀ rows, lastVal y t rows = none → ∀ e ∈ rows, ¬(e.1 = y ∧ e.2.1 = t) := by
  intro rows
  induction rows with
  | nil => intro _ e he; cases he
  | cons e rest ih =>
    intro h e' he'
    rw [lastVal] at h
    cases hm : lastVal y t rest with
    | some v => rw [hm] at h; cases h
    | none =>
      rw [hm] at h
      rcases List.mem_cons.mp he' with he' | he'
      · subst he'
        intro hcon
        rw [if_pos hcon] at h
        cases h
      · exact ih hm e' he'

theorem applyRows_lastVal (cid : Nat) (y t : String) (v : Rat) :
    ∀ rows, lastVal y t rows = some v →
      ∀ l, readingsUnique l = true →
        countKey (applyRows cid rows l) cid y t = 1 ∧
        lookupKey (applyRows cid rows l) cid y t = some v := by
  intro rows
  induction rows with
  | nil => intro h; cases h
  | cons e rest ih =>
    intro h l hl
    rw [applyRows_cons]
    rw [lastVal] at h
    cases hm : lastVal y t rest with
    | some v' =>
      rw [hm] at h
      cases h
      exact ih hm _ (readingsUnique_upsert _ _ _ _ _ hl)
    | none =>
      rw [hm] at h
      by_cases hc : e.1 = y ∧ e.2.1 = t
      · rw [if_pos hc] at h
        injection h with hv
        obtain ⟨hcy, hct⟩ := hc
        obtain ⟨hcnt, hlk⟩ := applyRows_not_mentioned cid cid y t rest
          (lastVal_none y t rest hm) (upsertReading l cid e.1 e.2.1 e.2.2)
        rw [hcnt, hlk, hcy, hct]
        exact ⟨countKey_upsert_self l cid y t e.2.2 hl,
          (lookupKey_upsert_self l cid y t e.2.2).trans (by rw [hv])⟩
      · rw [if_neg hc] at h
        cases h

/-! ### Lemmas about the ingest gate and the per-sheet loop -/

theorem ingest_gate_true (file_bytes : List Nat) (file_name : String)
    (wb : List (String × Option DataFrame)) (db : DB)
    (h : db.files.any (fun f => f.sha256 == file_sha256 file_bytes) = true) :
    ingest_excel_to_db file_bytes file_name wb db =
      (db, .skipped "This file has already been ingested (by content hash).") := by
  unfold ingest_excel_to_db
  simp only [init_db, h, if_true]

theorem ingest_gate_false_none (file_bytes : List Nat) (file_name : String)
    (wb : List (String × Option DataFrame)) (db : DB)
    (h : db.files.any (fun f => f.sha256 == file_sha256 file_bytes) = false)
    (hs : ingestSheets db wb = none) :
    ingest_excel_to_db file_bytes file_name wb db = (db, .failed) := by
  unfold ingest_excel_to_db
  simp only [init_db, h, Bool.false_eq_true, if_false, hs]

theorem ingest_gate_false_some (file_bytes : List Nat) (file_name : String)
    (wb : List (String × Option DataFrame)) (db : DB)
    (h : db.files.any (fun f => f.sha256 == file_sha256 file_bytes) = false)
    (db1 : DB) (hs : ingestSheets db wb = some db1) :
    ingest_excel_to_db file_bytes file_name wb db =
      ({ db1 with
          files := db1.files ++ [⟨db1.nextFileId, file_name, file_sha256 file_bytes⟩],
          nextFileId := db1.nextFileId + 1 },
       .ingested "Ingest completed.") := by
  unfold ingest_excel_to_db
  simp only [init_db, h, Bool.false_eq_true, if_false, hs]

theorem ensure_contract_frame (db : DB) (s : String) :
    (ensure_contract db s).2.files = db.files ∧
    (ensure_contract db s).2.readings = db.readings ∧
    (ensure_contract db s).2.nextFileId = db.nextFileId := by
  unfold ensure_contract
  cases h : db.contracts.find? (fun c => c.contract_no == s) <;> simp

theorem ensure_contract_mem (db : DB) (s : String) :
    ∃ c ∈ (ensure_contract db s).2.contracts, c.contract_no = s := by
  unfold ensure_contract
  cases h : db.contracts.find? (fun c => c.contract_no == s) with
  | some c =>
    refine ⟨c, List.mem_of_find?_eq_some h, ?_⟩
    have := List.find?_some h
    simpa [beq_iff_eq] using this
  | none => exact ⟨⟨db.nextContractId, s⟩, by simp, rfl⟩

theorem ensure_contract_mono (db : DB) (s : String) (c : ContractRec)
    (hc : c ∈ db.contracts) : c ∈ (ensure_contract db s).2.contracts := by
  unfold ensure_contract
  cases h : db.contracts.find? (fun c => c.contract_no == s) with
  | some c' => exact hc
  | none => exact List.mem_append_left _ hc

theorem insert_readings_contracts (db : DB) (cid : Nat) (df : DataFrame) :
    (insert_readings db cid df).contracts = db.contracts := rfl

theorem ingestSheets_contracts (wb : List (String × Option DataFrame)) :
    ∀ db db', ingestSheets db wb = some db' →
      (∀ c ∈ db.contracts, c ∈ db'.contracts) ∧
      (∀ p ∈ wb, ∃ c ∈ db'.contracts, c.contract_no = p.1) := by
  induction wb with
  | nil =>
    intro db db' h
    rw [ingestSheets] at h
    injection h with h
    subst h
    exact ⟨fun c hc => hc, by simp⟩
  | cons p rest ih =>
    intro db db' h
    obtain ⟨s, odf⟩ := p
    cases odf with
    | none => rw [ingestSheets] at h; cases h
    | some df =>
      rw [ingestSheets] at h
      obtain ⟨hmono, hcov⟩ := ih _ _ h
      have hstep : ∀ c ∈ db.contracts,
          c ∈ (insert_readings (ensure_contract db s).2 (ensure_contract db s).1 df).contracts := by
        intro c hc
        rw [insert_readings_contracts]
        exact ensure_contract_mono db s c hc
      refine ⟨fun c hc => hmono c (hstep c hc), ?_⟩
      intro q hq
      rcases List.mem_cons.mp hq with hq | hq
      · subst hq
        obtain ⟨c, hc, hcs⟩ := ensure_contract_mem db s
        refine ⟨c, hmono c ?_, hcs⟩
        rw [insert_readings_contracts]
        exact hc
      · exact hcov q hq

theorem ingestSheets_empty_frame (wb : List (String × Option DataFrame)) :
    ∀ db, (∀ p ∈ wb, ∃ df, p.2 = some df ∧ melt_long df = []) →
      ∃ db', ingestSheets db wb = some db' ∧ db'.files = db.files ∧
        db'.readings = db.readings ∧ db'.nextFileId = db.nextFileId := by
  induction wb with
  | nil => exact fun db _ => ⟨db, rfl, rfl, rfl, rfl⟩
  | cons p rest ih =>
    intro db hp
    obtain ⟨s, odf⟩ := p
    obtain ⟨df, hodf, hmelt⟩ := hp (s, odf) (List.mem_cons_self _ _)
    cases hodf
    have hins : (insert_readings (ensure_contract db s).2 (ensure_contract db s).1 df).readings =
        (ensure_contract db s).2.readings := by
      unfold insert_readings
      rw [hmelt]
      rfl
    obtain ⟨db', hdb', hf, hr, hn⟩ :=
      ih (insert_readings (ensure_contract db s).2 (ensure_contract db s).1 df)
        (fun q hq => hp q (List.mem_cons_of_mem _ hq))
    obtain ⟨hef, her, hen⟩ := ensure_contract_frame db s
    refine ⟨db', ?_, ?_, ?_, ?_⟩
    · rw [ingestSheets]; exact hdb'
    · rw [hf]; exact hef
    · rw [hr, hins]; exact her
    · rw [hn]; exact hen

/-! ### Claims -/

/-- C1: a byte string whose SHA-256 digest is already in the `files` table is
skipped: the store is returned unchanged (so the SourceFile record stays
unique and Reading/Contract counts are unchanged), the result does not
depend on what the Loader/Normalizer would produce, and the outcome is the
`Skipped` "already been ingested" message, not an error. -/
theorem spec_C1 (db : DB) (file_bytes : List Nat) (file_name : String)
    (wb wb' : List (String × Option DataFrame))
    (h : db.files.countP (fun f => f.sha256 == file_sha256 file_bytes) = 1) :
    ingest_excel_to_db file_bytes file_name wb db =
      (db, .skipped "This file has already been ingested (by content hash).") ∧
    ingest_excel_to_db file_bytes file_name wb db =
      ingest_excel_to_db file_bytes file_name wb' db ∧
    (ingest_excel_to_db file_bytes file_name wb db).1.files.countP
      (fun f => f.sha256 == file_sha256 file_bytes) = 1 := by
  have hpos : 0 < db.files.countP (fun f => f.sha256 == file_sha256 file_bytes) := by omega
  have hsha : db.files.any (fun f => f.sha256 == file_sha256 file_bytes) = true :=
    List.any_eq_true.mpr (List.countP_pos_iff.mp hpos)
  have hmain := fun wbx => ingest_gate_true file_bytes file_name wbx db hsha
  refine ⟨hmain wb, (hmain wb).trans (hmain wb').symm, ?_⟩
  rw [hmain wb]
  exact h

/-- C2: an ingest that fails (a sheet raising inside the transaction) leaves
the store exactly as it was — no Reading, Contract or SourceFile row of the
attempt is visible — and a retry with the same bytes passes the gate again
instead of being reported `Skipped`. -/
theorem spec_C2 (db : DB) (file_bytes : List Nat) (file_name : String)
    (wb : List (String × Option DataFrame))
    (h : (ingest_excel_to_db file_bytes file_name wb db).2 = .failed) :
    (ingest_excel_to_db file_bytes file_name wb db).1 = db ∧
    ∀ wb₂ name₂ msg, (ingest_excel_to_db file_bytes name₂ wb₂ db).2 ≠ .skipped msg := by
  by_cases hany : db.files.any (fun f => f.sha256 == file_sha256 file_bytes) = true
  · rw [ingest_gate_true file_bytes file_name wb db hany] at h
    cases h
  · have hany' : db.files.any (fun f => f.sha256 == file_sha256 file_bytes) = false := by
      simpa using hany
    constructor
    · cases hs : ingestSheets db wb with
      | none => rw [ingest_gate_false_none file_bytes file_name wb db hany' hs]
      | some db1 =>
        rw [ingest_gate_false_some file_bytes file_name wb db hany' db1 hs] at h
        cases h
    · intro wb₂ name₂ msg
      cases hs : ingestSheets db wb₂ with
      | none => rw [ingest_gate_false_none file_bytes name₂ wb₂ db hany' hs]; intro hcon; cases hcon
      | some db1 =>
        rw [ingest_gate_false_some file_bytes name₂ wb₂ db hany' db1 hs]
        intro hcon; cases hcon

/-- C3: with the `UNIQUE(contract_id, ymd, time)` invariant holding, two
successive ingests whose normalized outputs both carry the same
`(contract, date, time-slot)` triple (with different values) leave exactly
one Reading row for that triple, holding the value the later ingest wrote
last; the key stays unique. -/
theorem spec_C3 (db : DB) (cid : Nat) (df₁ df₂ : DataFrame) (ymd t : String) (v₁ v₂ : Rat)
    (hwf : readingsUnique db.readings = true)
    (h1 : (ymd, t, v₁) ∈ melt_long df₁)
    (h2 : lastVal ymd t (melt_long df₂) = some v₂)
    (hne : v₁ ≠ v₂) :
    countKey (insert_readings (insert_readings db cid df₁) cid df₂).readings cid ymd t = 1 ∧
    lookupKey (insert_readings (insert_readings db cid df₁) cid df₂).readings cid ymd t = some v₂ ∧
    readingsUnique (insert_readings (insert_readings db cid df₁) cid df₂).readings = true := by
  have hu1 : readingsUnique (insert_readings db cid df₁).readings = true :=
    readingsUnique_applyRows cid (melt_long df₁) db.readings hwf
  obtain ⟨hc, hl⟩ := applyRows_lastVal cid ymd t v₂ (melt_long df₂) h2
    (insert_readings db cid df₁).readings hu1
  exact ⟨hc, hl, readingsUnique_applyRows cid (melt_long df₂) _ hu1⟩

/-- C4: the three queries return the store they were given — they never
mutate a table, row or schema (the `CREATE TABLE IF NOT EXISTS` of
`init_db` touches no existing content). -/
theorem spec_C4 (db : DB) (cid : Nat) (ymd : String) :
    (list_contracts db).1 = db ∧ (list_dates db cid).1 = db ∧
    (get_series db cid ymd).1 = db := by
  refine ⟨rfl, rfl, ?_⟩
  simp only [get_series]
  split <;> rfl

/-- C5: a file with a fresh digest whose sheets all parse but normalize to
zero rows is still recorded in the `files` ledger (with zero readings
stored), and re-ingesting the same bytes afterwards is reported `Skipped`. -/
theorem spec_C5 (db : DB) (file_bytes : List Nat) (file_name : String)
    (wb : List (String × Option DataFrame))
    (hnew : db.files.any (fun f => f.sha256 == file_sha256 file_bytes) = false)
    (hsheets : ∀ p ∈ wb, ∃ df, p.2 = some df ∧ melt_long df = []) :
    (ingest_excel_to_db file_bytes file_name wb db).2 = .ingested "Ingest completed." ∧
    (ingest_excel_to_db file_bytes file_name wb db).1.files.map (fun f => (f.name, f.sha256)) =
      db.files.map (fun f => (f.name, f.sha256)) ++ [(file_name, file_sha256 file_bytes)] ∧
    (ingest_excel_to_db file_bytes file_name wb db).1.readings = db.readings ∧
    ∀ wb₂ name₂,
      ingest_excel_to_db file_bytes name₂ wb₂ (ingest_excel_to_db file_bytes file_name wb db).1 =
        ((ingest_excel_to_db file_bytes file_name wb db).1,
         .skipped "This file has already been ingested (by content hash).") := by
  obtain ⟨db1, hs, hfiles, hreads, hnext⟩ := ingestSheets_empty_frame wb db hsheets
  have hmain := ingest_gate_false_some file_bytes file_name wb db hnew db1 hs
  rw [hmain]
  refine ⟨rfl, ?_, hreads, ?_⟩
  · simp [hfiles]
  · intro wb₂ name₂
    apply ingest_gate_true
    simp [List.any_append]

/-- C10: after a successful ingest, every sheet name of the workbook has a
Contract record, even for sheets that produced zero Reading rows. -/
theorem spec_C10 (db : DB) (file_bytes : List Nat) (file_name : String)
    (wb : List (String × Option DataFrame)) (msg : String)
    (hok : (ingest_excel_to_db file_bytes file_name wb db).2 = .ingested msg) :
    ∀ p ∈ wb, ∃ c ∈ (ingest_excel_to_db file_bytes file_name wb db).1.contracts,
      c.contract_no = p.1 := by
  by_cases hany : db.files.any (fun f => f.sha256 == file_sha256 file_bytes) = true
  · rw [ingest_gate_true file_bytes file_name wb db hany] at hok
    cases hok
  · have hany' : db.files.any (fun f => f.sha256 == file_sha256 file_bytes) = false := by
      simpa using hany
    cases hs : ingestSheets db wb with
    | none =>
      rw [ingest_gate_false_none file_bytes file_name wb db hany' hs] at hok
      cases hok
    | some db1 =>
      rw [ingest_gate_false_some file_bytes file_name wb db hany' db1 hs]
      intro p hp
      obtain ⟨_, hcov⟩ := ingestSheets_contracts wb db db1 hs
      exact hcov p hp

/-! ### Concrete fixtures -/

/-- The wide table of §8.3 of the spec: one row, two half-hour slots. -/
def sampleDf : DataFrame :=
  ⟨["年月日", "00:00:00", "00:30:00"],
   [[Cell.str "20230115", Cell.num 1.5, Cell.num 2.0]]⟩

/-- Same table with a different value in the first slot. -/
def sampleDf2 : DataFrame :=
  ⟨["年月日", "00:00:00", "00:30:00"],
   [[Cell.str "20230115", Cell.num 2.5, Cell.num 2.0]]⟩

/-- A sheet with a non-numeric time-slot cell. -/
def failDf : DataFrame :=
  ⟨["年月日", "00:00:00"], [[Cell.str "20230115", Cell.str "abc"]]⟩

/-- A sheet with no date column at all (normalizes to zero rows). -/
def noDateDf : DataFrame := ⟨["A"], [[Cell.num 3]]⟩

/-- Some file bytes. -/
def sampleBytes : List Nat := [1, 2, 3]

/-- A store that already holds the ledger entry for `sampleBytes`. -/
def dbWithSample : DB :=
  { emptyDB with
      files := [⟨1, "first.xlsx", file_sha256 sampleBytes⟩],
      nextFileId := 2 }

/-- Predicate: `pd.to_numeric(·, errors="coerce")` fails on this cell (it is NaN or an
unparseable string). -/
def coerceFails : Cell → Bool
  | .num _ => false
  | .str s => (parseNum s).isNone
  | .null => true

/-! ### Claims (continued) -/

/-- C6: round-trip of the spec's concrete wide table — ingesting the single
row `["20230115", 1.5, 2.0]` and querying the series for `"2023-01-15"`
returns exactly the two slots in ascending order with their values. -/
theorem spec_C6 :
    (get_series (ingest_excel_to_db sampleBytes "sample.xlsx"
        [("C001", some sampleDf)] emptyDB).1 1 "2023-01-15").2 =
      (["00:00:00", "00:30:00"], [1.5, 2.0]) ∧
    ((get_series (ingest_excel_to_db sampleBytes "sample.xlsx"
        [("C001", some sampleDf)] emptyDB).1 1 "2023-01-15").2.1.zip
      (get_series (ingest_excel_to_db sampleBytes "sample.xlsx"
        [("C001", some sampleDf)] emptyDB).1 1 "2023-01-15").2.2) =
      [("00:00:00", 1.5), ("00:30:00", 2.0)] :=
  ⟨rfl, rfl⟩

/-- Any long-format row whose `(ymd, time)` pair occurs in the batch leaves
the batch's last value for it; in particular the pair is present. -/
theorem lastVal_of_mem (y t : String) (v : Rat) :
    ∀ rows : List (String × String × Rat), (y, t, v) ∈ rows →
      ∃ w, lastVal y t rows = some w := by
  intro rows
  induction rows with
  | nil => intro h; cases h
  | cons e rest ih =>
    intro h
    rw [lastVal]
    cases hm : lastVal y t rest with
    | some w => exact ⟨w, rfl⟩
    | none =>
      rcases List.mem_cons.mp h with h | h
      · subst h
        rw [if_pos ⟨rfl, rfl⟩]
        exact ⟨v, rfl⟩
      · obtain ⟨w, hw⟩ := ih h
        rw [hm] at hw
        cases hw

/-- C7: a time-slot cell whose value fails numeric coercion is neither
dropped nor an error: the Normalizer emits its long-format row with value
`0.0`, and after the upsert the store holds a Reading row for that cell's
`(contract, date, slot)` key. -/
theorem spec_C7 (df : DataFrame) (d : Nat × Nat × Nat) (r : List Cell) (tc : String)
    (db : DB) (cid : Nat)
    (hcol : df.cols.contains "年月日" = true)
    (hvr : (d, r) ∈ validRows df)
    (htc : tc ∈ time_cols df)
    (hfail : coerceFails (r.getD (idxOfCol tc df.cols) Cell.null) = true)
    (hwf : readingsUnique db.readings = true) :
    (fmtYmd d, tc, (0 : Rat)) ∈ melt_long df ∧
    countKey (insert_readings db cid df).readings cid (fmtYmd d) tc = 1 := by
  have hzero : coerceKwh (r.getD (idxOfCol tc df.cols) Cell.null) = 0 := by
    cases hcell : r.getD (idxOfCol tc df.cols) Cell.null with
    | num q => rw [hcell] at hfail; cases hfail
    | str s =>
      rw [hcell] at hfail
      have : parseNum s = none := by
        simpa [coerceFails, Option.isNone_iff_eq_none] using hfail
      simp [coerceKwh, this]
    | null => simp [coerceKwh]
  have hmem : (fmtYmd d, tc, (0 : Rat)) ∈ melt_long df := by
    unfold melt_long
    rw [if_pos hcol, if_neg (List.ne_nil_of_mem htc)]
    refine List.mem_flatMap.mpr ⟨tc, htc, List.mem_map.mpr ⟨(d, r), hvr, ?_⟩⟩
    show (fmtYmd d, tc, coerceKwh (r.getD (idxOfCol tc df.cols) Cell.null)) =
      (fmtYmd d, tc, (0 : Rat))
    rw [hzero]
  refine ⟨hmem, ?_⟩
  obtain ⟨w, hw⟩ := lastVal_of_mem (fmtYmd d) tc 0 (melt_long df) hmem
  exact (applyRows_lastVal cid (fmtYmd d) tc w (melt_long df) hw db.readings hwf).1

/-- C8: a row whose date cell does not parse as an 8-digit calendar date
contributes nothing: deleting it from the table changes neither the
normalized output, nor the store after ingest, nor `list_dates`. -/
theorem spec_C8 (cols : List String) (l₁ l₂ : List (List Cell)) (r : List Cell)
    (db : DB) (cid : Nat)
    (hbad : parseYmd (cellStr (r.getD (idxOfCol "年月日" cols) Cell.null)) = none) :
    melt_long ⟨cols, l₁ ++ r :: l₂⟩ = melt_long ⟨cols, l₁ ++ l₂⟩ ∧
    insert_readings db cid ⟨cols, l₁ ++ r :: l₂⟩ = insert_readings db cid ⟨cols, l₁ ++ l₂⟩ ∧
    (list_dates (insert_readings db cid ⟨cols, l₁ ++ r :: l₂⟩) cid).2 =
      (list_dates (insert_readings db cid ⟨cols, l₁ ++ l₂⟩) cid).2 := by
  have hv : validRows ⟨cols, l₁ ++ r :: l₂⟩ = validRows ⟨cols, l₁ ++ l₂⟩ := by
    unfold validRows
    dsimp only
    rw [List.filterMap_append, List.filterMap_append, List.filterMap_cons, hbad]
    rfl
  have hm : melt_long ⟨cols, l₁ ++ r :: l₂⟩ = melt_long ⟨cols, l₁ ++ l₂⟩ := by
    unfold melt_long time_cols
    dsimp only
    rw [hv]
  have hi : insert_readings db cid ⟨cols, l₁ ++ r :: l₂⟩ =
      insert_readings db cid ⟨cols, l₁ ++ l₂⟩ := by
    unfold insert_readings
    rw [hm]
  exact ⟨hm, hi, by rw [hi]⟩

/-- C9: `get_series` always returns two sequences of equal length (one value
per slot, positionally matched), and when no reading matches the key/date it
returns the empty pair rather than failing. -/
theorem spec_C9 (db : DB) (cid : Nat) (ymd : String) :
    (get_series db cid ymd).2.1.length = (get_series db cid ymd).2.2.length ∧
    ((∀ r ∈ db.readings, ¬(r.contract_id = cid ∧ r.ymd = ymd)) →
      (get_series db cid ymd).2 = ([], [])) := by
  constructor
  · simp only [get_series]
    split <;> simp
  · intro h
    have hfil : db.readings.filter (fun r => r.contract_id == cid && r.ymd == ymd) = [] := by
      refine List.filter_eq_nil_iff.mpr (fun r hr => ?_)
      have := h r hr
      simp only [Bool.and_eq_true, beq_iff_eq]
      exact fun hcon => this hcon
    simp [get_series, hfil, sortByLe]

/-! ### Witnesses -/

/-- Witness for C1: a store that holds the digest of `sampleBytes` once
skips a re-upload of those bytes and stays unchanged. -/
theorem spec_C1_witness :
    dbWithSample.files.countP (fun f => f.sha256 == file_sha256 sampleBytes) = 1 ∧
    ingest_excel_to_db sampleBytes "again.xlsx" [("C001", some sampleDf)] dbWithSample =
      (dbWithSample, .skipped "This file has already been ingested (by content hash).") :=
  ⟨rfl,
   (spec_C1 dbWithSample sampleBytes "again.xlsx" [("C001", some sampleDf)] [] rfl).1⟩

/-- Witness for C2: a workbook whose sheet fails to parse leaves the empty
store untouched, and a retry with the same bytes is not `Skipped`. -/
theorem spec_C2_witness :
    (ingest_excel_to_db sampleBytes "f.xlsx" [("S", none)] emptyDB).2 = .failed ∧
    (ingest_excel_to_db sampleBytes "f.xlsx" [("S", none)] emptyDB).1 = emptyDB ∧
    (ingest_excel_to_db sampleBytes "g.xlsx" [("S", some sampleDf)] emptyDB).2 ≠
      .skipped "This file has already been ingested (by content hash)." :=
  ⟨rfl,
   (spec_C2 emptyDB sampleBytes "f.xlsx" [("S", none)] rfl).1,
   (spec_C2 emptyDB sampleBytes "f.xlsx" [("S", none)] rfl).2 [("S", some sampleDf)]
     "g.xlsx" "This file has already been ingested (by content hash)."⟩

/-- Witness for C3: re-ingesting the same `(contract, date, slot)` triple
with value 2.5 over 1.5 leaves one row holding 2.5. -/
theorem spec_C3_witness :
    readingsUnique emptyDB.readings = true ∧
    countKey (insert_readings (insert_readings emptyDB 1 sampleDf) 1 sampleDf2).readings
      1 "2023-01-15" "00:00:00" = 1 ∧
    lookupKey (insert_readings (insert_readings emptyDB 1 sampleDf) 1 sampleDf2).readings
      1 "2023-01-15" "00:00:00" = some 2.5 := by
  have h1 : ("2023-01-15", "00:00:00", (1.5 : Rat)) ∈ melt_long sampleDf := by
    rw [show melt_long sampleDf =
      [("2023-01-15", "00:00:00", (1.5 : Rat)), ("2023-01-15", "00:30:00", (2.0 : Rat))] from rfl]
    exact List.mem_cons_self _ _
  have h := spec_C3 emptyDB 1 sampleDf sampleDf2 "2023-01-15" "00:00:00" 1.5 2.5 rfl h1 rfl
    (by norm_num)
  exact ⟨rfl, h.1, h.2.1⟩

/-- Witness for C5: a workbook with one sheet that has no date column is
recorded in the ledger with zero readings stored, and re-ingesting the same
bytes afterwards is `Skipped`. -/
theorem spec_C5_witness :
    (ingest_excel_to_db sampleBytes "z.xlsx" [("S1", some noDateDf)] emptyDB).2 =
      .ingested "Ingest completed." ∧
    (ingest_excel_to_db sampleBytes "z.xlsx" [("S1", some noDateDf)] emptyDB).1.readings =
      emptyDB.readings ∧
    (ingest_excel_to_db sampleBytes "z.xlsx" [("S1", some noDateDf)] emptyDB).1.files.map
        (fun f => (f.name, f.sha256)) = [("z.xlsx", file_sha256 sampleBytes)] ∧
    (ingest_excel_to_db sampleBytes "w.xlsx" [("S2", some sampleDf)]
        (ingest_excel_to_db sampleBytes "z.xlsx" [("S1", some noDateDf)] emptyDB).1).2 =
      .skipped "This file has already been ingested (by content hash)." := by
  have hsheets : ∀ p ∈ [(("S1" : String), some noDateDf)],
      ∃ df, p.2 = some df ∧ melt_long df = [] := by
    intro p hp
    rw [List.mem_singleton.mp hp]
    exact ⟨noDateDf, rfl, rfl⟩
  have h := spec_C5 emptyDB sampleBytes "z.xlsx" [("S1", some noDateDf)] rfl hsheets
  refine ⟨h.1, h.2.2.1, ?_, ?_⟩
  · rw [h.2.1]; rfl
  · rw [(h.2.2.2 [("S2", some sampleDf)] "w.xlsx")]

/-- Witness for C7: the non-numeric cell `"abc"` under slot `"00:00:00"` is
normalized to value `0.0` and stored. -/
theorem spec_C7_witness :
    ("2023-01-15", "00:00:00", (0 : Rat)) ∈ melt_long failDf ∧
    countKey (insert_readings emptyDB 1 failDf).readings 1 "2023-01-15" "00:00:00" = 1 := by
  have hvr : (((2023, 1, 15) : Nat × Nat × Nat), [Cell.str "20230115", Cell.str "abc"]) ∈
      validRows failDf := by
    rw [show validRows failDf =
      [(((2023, 1, 15) : Nat × Nat × Nat), [Cell.str "20230115", Cell.str "abc"])] from rfl]
    exact List.mem_cons_self _ _
  have htc : "00:00:00" ∈ time_cols failDf := by
    rw [show time_cols failDf = ["00:00:00"] from rfl]
    exact List.mem_cons_self _ _
  exact spec_C7 failDf (2023, 1, 15) [Cell.str "20230115", Cell.str "abc"] "00:00:00"
    emptyDB 1 rfl hvr htc rfl rfl

/-- Witness for C8: a row with the unparseable date `"bad"` contributes
nothing — with or without it, the normalized output, the store and
`list_dates` agree. -/
theorem spec_C8_witness :
    melt_long ⟨["年月日", "00:00:00"],
        [[Cell.str "20230115", Cell.num 1], [Cell.str "bad", Cell.num 9]]⟩ =
      melt_long ⟨["年月日", "00:00:00"], [[Cell.str "20230115", Cell.num 1]]⟩ ∧
    (list_dates (insert_readings emptyDB 1 ⟨["年月日", "00:00:00"],
        [[Cell.str "20230115", Cell.num 1], [Cell.str "bad", Cell.num 9]]⟩) 1).2 =
      (list_dates (insert_readings emptyDB 1 ⟨["年月日", "00:00:00"],
        [[Cell.str "20230115", Cell.num 1]]⟩) 1).2 := by
  have h := spec_C8 ["年月日", "00:00:00"] [[Cell.str "20230115", Cell.num 1]] []
    [Cell.str "bad", Cell.num 9] emptyDB 1 rfl
  exact ⟨h.1, h.2.2⟩

/-- Witness for C9: querying an empty store returns the empty pair and two
lists of equal length. -/
theorem spec_C9_witness :
    (get_series emptyDB 1 "2023-01-01").2.1.length =
      (get_series emptyDB 1 "2023-01-01").2.2.length ∧
    (get_series emptyDB 1 "2023-01-01").2 = ([], []) :=
  ⟨(spec_C9 emptyDB 1 "2023-01-01").1,
   (spec_C9 emptyDB 1 "2023-01-01").2 (fun r hr => absurd hr (List.not_mem_nil r))⟩

/-- Witness for C10: ingesting a workbook whose only sheet has no date
column still creates the Contract record for that sheet. -/
theorem spec_C10_witness :
    ∃ c ∈ (ingest_excel_to_db sampleBytes "z2.xlsx" [("S1", some noDateDf)]
        emptyDB).1.contracts, c.contract_no = "S1" :=
  spec_C10 emptyDB sampleBytes "z2.xlsx" [("S1", some noDateDf)] "Ingest completed." rfl
    ("S1", some noDateDf) (List.mem_cons_self _ _)

end AmiViewer
